import Mathlib

/-!
Verification of the RAG-evaluation utilities (`src/utils/utils.py`,
`src/utils/api_client.py`, `src/utils/convert_results_to_csv.py`).

The Python code manipulates JSON-like dictionaries.  We embed JSON values
as the inductive type `JVal` (dictionaries become association lists that
keep insertion order, as Python dicts do) and translate each Python
function into an executable Lean definition.  Python code that can raise
is modelled with `Option`/`Except`; HTTP traffic is abstracted into
oracle functions passed as arguments.
-/

set_option maxHeartbeats 1000000

/-- JSON-like values, mirroring the Python objects the utilities pass around.
Numbers are embedded as `Int`; the claims under study never depend on
fractional values (the only numeric default in the code is the literal `0`). -/
inductive JVal where
  | null : JVal
  | bool : Bool → JVal
  | num : Int → JVal
  | str : String → JVal
  | arr : List JVal → JVal
  | obj : List (String × JVal) → JVal
deriving Repr

/-- A Python dictionary: an insertion-ordered association list. -/
abbrev JDict := List (String × JVal)

/-- `d[k]` as Python's strict dictionary lookup: `none` models a raised
`KeyError`.  Returns the first binding (Python dicts have unique keys). -/
def objGet : JDict → String → Option JVal
  | [], _ => none
  | (k, v) :: t, key => if k = key then some v else objGet t key

/-- `d.get(k, default)`. -/
def getD (d : JDict) (k : String) (dflt : JVal) : JVal :=
  (objGet d k).getD dflt

/-- `d[k] = v`: replace the existing binding in place (Python keeps the
original insertion position) or append a new one. -/
def setKey : JDict → String → JVal → JDict
  | [], k, v => [(k, v)]
  | (k', v') :: t, k, v => if k' = k then (k, v) :: t else (k', v') :: setKey t k v

/-- Python truthiness of a JSON value (`bool(x)`). -/
def truthy : JVal → Bool
  | .null => false
  | .bool b => b
  | .num n => n != 0
  | .str s => s ≠ ""
  | .arr l => !l.isEmpty
  | .obj f => !f.isEmpty

/-! ## Text filter (`src/utils/utils.py`)

Each `re.sub` pass of `strip_markdown` is embedded as a scanner over
`List Char` implementing Python's leftmost-match substitution: at each
position the pattern matcher either yields `(replacement, rest-after-match)`
or fails, in which case the character is copied and scanning resumes one
character later.  Every pattern of the source consumes at least one
character, so a fuel equal to the input length always suffices. -/

/-- The backtick character. -/
def tick : Char := Char.ofNat 96

/-- Find the earliest occurrence of three consecutive backticks; return the
rest after it (the lazy `.*?` with `re.DOTALL`, so newlines are allowed). -/
def findTriple : List Char → Option (List Char)
  | [] => none
  | c :: t =>
    match t with
    | c2 :: _ :: _ =>
      match t with
      | _ :: c3 :: r =>
        if c == tick && c2 == tick && c3 == tick then some r else findTriple t
      | _ => none
    | _ => none

/-- Matcher for `` ```.*?``` `` (code blocks, `re.DOTALL`). -/
def fenceM : List Char → Option (List Char × List Char)
  | c :: c2 :: c3 :: r =>
    if c == tick && c2 == tick && c3 == tick then
      (findTriple r).map (fun rest => (([] : List Char), rest))
    else none
  | _ => none

/-- Earliest closing backtick with no newline before it (lazy `.*?` without
`DOTALL`). -/
def findTick : List Char → Option (List Char)
  | [] => none
  | c :: t => if c == tick then some t else if c == '\n' then none else findTick t

/-- Matcher for `` `.*?` `` (inline code). -/
def inlineM : List Char → Option (List Char × List Char)
  | c :: t =>
    if c == tick then (findTick t).map (fun rest => (([] : List Char), rest))
    else none
  | [] => none

/-- Earliest `)` with no newline before it. -/
def findParen : List Char → Option (List Char)
  | [] => none
  | ')' :: r => some r
  | '\n' :: _ => none
  | _ :: t => findParen t

/-- After `![`, search for a `](`…`)` completion, backtracking over the
lazy `.*?` inside the square brackets (which cannot cross a newline). -/
def imgGo : List Char → Option (List Char)
  | [] => none
  | ']' :: t =>
    match t with
    | '(' :: r =>
      match findParen r with
      | some r' => some r'
      | none => imgGo t
    | _ => imgGo t
  | '\n' :: _ => none
  | _ :: t => imgGo t

/-- Matcher for `!\[.*?\]\(.*?\)` (images, removed outright). -/
def imageM : List Char → Option (List Char × List Char)
  | c1 :: c2 :: r =>
    if c1 = '!' ∧ c2 = '[' then (imgGo r).map (fun rest => (([] : List Char), rest))
    else none
  | _ => none

/-- The label-and-target scan of the link pattern, after the opening
bracket. -/
def linkGo (r : List Char) : Option (List Char × List Char) :=
    let inner1 := r.takeWhile (· ≠ ']')
    match r.dropWhile (· ≠ ']') with
    | ']' :: rest2 =>
      if inner1.isEmpty then none
      else
        match rest2 with
        | '(' :: r2 =>
          let inner2 := r2.takeWhile (· ≠ ')')
          match r2.dropWhile (· ≠ ')') with
          | ')' :: rest3 => if inner2.isEmpty then none else some (inner1, rest3)
          | _ => none
        | _ => none
    | _ => none

/-- Matcher for `\[([^\]]+)\]\([^\)]+\)` (links, replaced by their label).
The negated classes are deterministic: the label runs to the first `]`,
the target to the first `)`, and both may contain newlines. -/
def linkM : List Char → Option (List Char × List Char)
  | [] => none
  | c :: r =>
    if c = '[' then
      linkGo r
    else none

/-- Earliest closing single-character delimiter `d`, collecting the lazy
inner text, which may not contain a newline. -/
def findD1 (d : Char) : List Char → Option (List Char × List Char)
  | [] => none
  | c :: t =>
    if c == d then some ([], t)
    else if c == '\n' then none
    else (findD1 d t).map (fun p => (c :: p.1, p.2))

/-- Earliest closing doubled delimiter `dd`, collecting the lazy inner text,
which may not contain a newline. -/
def findD2 (d : Char) : List Char → Option (List Char × List Char)
  | [] => none
  | c :: t =>
    match t with
    | c2 :: t2 =>
      if c == d && c2 == d then some ([], t2)
      else if c == '\n' then none
      else (findD2 d t).map (fun p => (c :: p.1, p.2))
    | [] => none

/-- One alternation branch `dd(.*?)dd` of the emphasis pattern. -/
def emphTry2 (d : Char) : List Char → Option (List Char × List Char)
  | c1 :: c2 :: t => if c1 == d && c2 == d then findD2 d t else none
  | _ => none

/-- One alternation branch `d(.*?)d` of the emphasis pattern. -/
def emphTry1 (d : Char) : List Char → Option (List Char × List Char)
  | c :: t => if c == d then findD1 d t else none
  | _ => none

/-- Matcher for `(\*\*|__|\*|_)(.*?)\1` (bold/italic, replaced by the inner
text); the alternatives are tried in the source pattern's order. -/
def emphM (l : List Char) : Option (List Char × List Char) :=
  (emphTry2 '*' l) <|> (emphTry2 '_' l) <|> (emphTry1 '*' l) <|> (emphTry1 '_' l)

/-- `re.sub` driver: scan left to right with explicit fuel (a fuel of
`l.length` is always enough because every matcher consumes ≥ 1 character). -/
def reSubF (m : List Char → Option (List Char × List Char)) : Nat → List Char → List Char
  | _, [] => []
  | 0, l => l
  | f + 1, c :: t =>
    match m (c :: t) with
    | some (rep, rest) => rep ++ reSubF m f rest
    | none => c :: reSubF m f t

/-- `re.sub(pattern, repl, text)` for one of the matchers above. -/
def reSub (m : List Char → Option (List Char × List Char)) (l : List Char) : List Char :=
  reSubF m l.length l

/-- Python's `\s` on the ASCII range (the inputs of interest are ASCII;
`re` additionally accepts Unicode whitespace, which the claims never use). -/
def isPySpace (c : Char) : Bool :=
  c == ' ' || c == '\t' || c == '\n' || c == '\r' || c == '\x0b' || c == '\x0c'

/-- `re.sub(r"^#+\s*", "", text, flags=re.MULTILINE)`: the boolean tracks
whether the current position is at a line start (string start or just after
a newline — note `\s*` may greedily swallow newlines, which re-anchors `^`). -/
def stripHeadF : Nat → Bool → List Char → List Char
  | _, _, [] => []
  | 0, _, l => l
  | f + 1, lineStart, c :: t =>
    if lineStart && c == '#' then
      let rest1 := (c :: t).dropWhile (· == '#')
      let sp := rest1.takeWhile isPySpace
      let rest2 := rest1.dropWhile isPySpace
      let nextStart := match sp.getLast? with
        | some ch => ch == '\n'
        | none => false
      stripHeadF f nextStart rest2
    else
      c :: stripHeadF f (c == '\n') t

/-- The heading-stripping pass. -/
def stripHeadings (l : List Char) : List Char := stripHeadF l.length true l

/-- `strip_markdown` from `src/utils/utils.py`: the six `re.sub` passes in
source order. -/
def strip_markdown (text : String) : String :=
  let t1 := reSub fenceM text.data
  let t2 := reSub inlineM t1
  let t3 := reSub imageM t2
  let t4 := reSub linkM t3
  let t5 := stripHeadings t4
  let t6 := reSub emphM t5
  String.mk t6

/-- Numeric value of a digit string (`int()` on a `\d+` match). -/
def digitsVal (l : List Char) : Nat :=
  l.foldl (fun a c => 10 * a + (c.toNat - 48)) 0

/-- The body of the pattern `\[(\d+)\s*-\s*(\d+)\]` after the opening
bracket.  The greedy `\d+`/`\s*` runs are deterministic because digits,
whitespace and the literals `-`, `]` are pairwise disjoint. -/
def matchRangeBody (r : List Char) : Option (Nat × Nat) :=
    let d1 := r.takeWhile Char.isDigit
    if d1.isEmpty then none
    else
      let r1 := (r.dropWhile Char.isDigit).dropWhile isPySpace
      match r1 with
      | '-' :: r2 =>
        let r3 := r2.dropWhile isPySpace
        let d2 := r3.takeWhile Char.isDigit
        if d2.isEmpty then none
        else
          match r3.dropWhile Char.isDigit with
          | ']' :: _ => some (digitsVal d1, digitsVal d2)
          | _ => none
      | _ => none

/-- Try to match the full range pattern at the head of the input. -/
def matchRangeAt : List Char → Option (Nat × Nat)
  | [] => none
  | c :: r =>
    if c = '[' then
      matchRangeBody r
    else none

/-- `re.search`: first position (leftmost) where the range pattern matches. -/
def findRange : List Char → Option (Nat × Nat)
  | [] => none
  | c :: t =>
    match matchRangeAt (c :: t) with
    | some p => some p
    | none => findRange t

/-- `extract_start_end` from `src/utils/utils.py`. -/
def extract_start_end (chunk_str : String) : Option (Nat × Nat) :=
  if chunk_str = "" then none else findRange chunk_str.data

/-! ## HTTP client (`src/utils/api_client.py`)

Network traffic is abstracted into oracle functions: an HTTP call is a
function from (url, body) to `Except`, where the `error` case models a
raised `requests` exception carrying its message, and `ok` carries the
decoded JSON (for `ask_question`) or the status code (for `check_health`,
which never reads a body). -/

/-- `str.rstrip('/')` on the character list. -/
def rstripSlashL (l : List Char) : List Char :=
  (l.reverse.dropWhile (· == '/')).reverse

/-- `l` ends with `pat`. -/
def endsWithL (l pat : List Char) : Bool :=
  pat == l.drop (l.length - pat.length)

/-- The constructor's normalization of `base_url` (`RAGAPIClient.__init__`):
strip trailing slashes, then append `/api/v1` unless it is already the
suffix. -/
def normalizeBase (base : String) : String :=
  let b := rstripSlashL base.data
  if endsWithL b "/api/v1".data then String.mk b
  else String.mk (b ++ "/api/v1".data)

/-- `f"{urlsplit(u).scheme}://{urlsplit(u).netloc}"` for the absolute URLs
the client stores: the scheme is the text before the first `://`, the
netloc runs to the following `/`.  (URLs with another `://` inside the path
are outside the model; the client only ever holds normalized http URLs.) -/
def serverRoot (url : String) : String :=
  match url.splitOn "://" with
  | scheme :: rest :: _ => scheme ++ "://" ++ (rest.splitOn "/").headD rest
  | _ => url

/-- The fixed ask endpoint `{base_url}/history/ask-with-history`. -/
def askEndpoint (base : String) : String :=
  base ++ "/history/ask-with-history"

/-- The strategy endpoint `{base_url}/testing/strategy/{strategy}`. -/
def strategyEndpoint (base strategy : String) : String :=
  base ++ "/testing/strategy/" ++ strategy

/-- The request body: `{"question": question}`, plus `conversation_id` when
it is present and truthy (`if conversation_id:` — the empty string is
falsy, so it is omitted). -/
def payloadFor (question : JVal) (cid : Option String) : JVal :=
  match cid with
  | some c =>
    if c ≠ "" then .obj [("question", question), ("conversation_id", .str c)]
    else .obj [("question", question)]
  | none => .obj [("question", question)]

/-- The record `ask_question` returns when the request raises a
`requests.exceptions.RequestException`. -/
def failureRecord (msg : String) : JVal :=
  .obj [("success", .bool false), ("error", .str msg),
        ("answer", .str ""), ("sources", .arr [])]

/-- `RAGAPIClient.ask_question`: POST to the ask endpoint; a transport
failure is translated into `failureRecord` instead of propagating.
(The logging side effects of the source are not modelled.) -/
def ask_question (http : String → JVal → Except String JVal) (base : String)
    (question : JVal) (cid : Option String) : JVal :=
  match http (askEndpoint base) (payloadFor question cid) with
  | .ok data => data
  | .error e => failureRecord e

/-- `RAGAPIClient.ask_question_with_strategy`: same contract against the
strategy endpoint. -/
def ask_question_with_strategy (http : String → JVal → Except String JVal)
    (base strategy : String) (question : JVal) (cid : Option String) : JVal :=
  match http (strategyEndpoint base strategy) (payloadFor question cid) with
  | .ok data => data
  | .error e => failureRecord e

/-- `RAGAPIClient.check_health`: GET the bare server root and demand
status 200; if that request raises, POST a throwaway question to the ask
endpoint and accept status 200, 400 or 422; false if the fallback also
raises.  A non-200 status on the GET is *not* a raise: `requests.get`
returns normally and the comparison yields false without any fallback. -/
def check_health (hget : String → Except Unit Nat)
    (hpost : String → JVal → Except Unit Nat) (base : String) : Bool :=
  match hget (serverRoot base) with
  | .ok code => code == 200
  | .error _ =>
    match hpost (askEndpoint base) (.obj [("question", .str "test")]) with
    | .ok code => code == 200 || code == 400 || code == 422
    | .error _ => false

/-- The context-building loop of `format_response`: each source's `content`
is run through `strip_markdown` and kept only if non-empty afterwards.
`none` models the exceptions Python would raise on a source that is not a
dict or whose content is not a string. -/
def contextArray : List JVal → Option (List String)
  | [] => some []
  | s :: rest =>
    match s with
    | .obj fields =>
      match getD fields "content" (.str "") with
      | .str c =>
        let stripped := strip_markdown c
        (contextArray rest).map (fun r => if stripped = "" then r else stripped :: r)
      | _ => none
    | _ => none

/-- `RAGAPIClient.format_response`.  The result is the output dictionary;
`none` models a raised exception (non-dict response, non-list `sources`,
ill-typed source content, or a non-dict `metadata` value — Python's
`.get` on it would raise). -/
def formatResponse (response : JVal) : Option JDict :=
  match response with
  | .obj fields =>
    if !truthy (getD fields "success" (.bool false)) then
      some [("answer", .str ""), ("context", .str ""), ("sources", .arr []),
            ("error", getD fields "error" (.str "Unknown error"))]
    else
      match getD fields "sources" (.arr []) with
      | .arr sources =>
        match contextArray sources with
        | some ctx =>
          match getD fields "metadata" (.obj []) with
          | .obj metaFields =>
            some [("question", getD fields "original_question" (.str "")),
                  ("answer", getD fields "answer" (.str "")),
                  ("context", .arr (ctx.map JVal.str)),
                  ("sources", .arr sources),
                  ("conversation_id", getD fields "conversation_id" (.str "")),
                  ("suggestions", getD fields "suggestions" (.arr [])),
                  ("metadata", .obj metaFields),
                  ("processing_time", getD metaFields "processing_time" (.num 0))]
          | _ => none
        | none => none
      | _ => none
  | _ => none

/-! ## Batch driver (`generate_test_data_from_api`)

Only the per-item loop is modelled (loading, the health gate and saving are
I/O around it).  Python mutates each test case in place and the `except`
clause runs on the partially updated dict, so the attempt threads the dict
through every assignment and reports the first failure alongside the state
reached; the error strings stand in for `str(e)` of the exception Python
would raise at that point. -/

/-- The body of the `try:` block for one test case: ask, format, then copy
the six generated fields in source order; strict lookups that would raise
`KeyError` stop the attempt (notably `formatted['metadata']` on the
failure-shaped record, which lacks that key). -/
def tryProcess (http : String → JVal → Except String JVal) (base : String)
    (tc : JDict) : JDict × Option String :=
  let question := getD tc "question" (.str "")
  let response := ask_question http base question none
  match formatResponse response with
  | none => (tc, some "TypeError: malformed response")
  | some f =>
    match objGet f "answer" with
    | none => (tc, some "KeyError: answer")
    | some a =>
      let tc1 := setKey (setKey tc "actual_output" a) "generated_answer" a
      match objGet f "context" with
      | none => (tc1, some "KeyError: context")
      | some c =>
        let tc2 := setKey tc1 "generated_context" c
        match objGet f "sources" with
        | none => (tc2, some "KeyError: sources")
        | some s =>
          let tc3 := setKey tc2 "api_sources" s
          match objGet f "metadata" with
          | none => (tc3, some "KeyError: metadata")
          | some m =>
            let tc4 := setKey tc3 "api_metadata" m
            match objGet f "processing_time" with
            | none => (tc4, some "KeyError: processing_time")
            | some p => (setKey tc4 "processing_time" p, none)

/-- One iteration of the batch loop: on an exception the item gets
`actual_output = ""` and the error string, and the loop moves on. -/
def processItem (http : String → JVal → Except String JVal) (base : String)
    (tc : JDict) : JDict :=
  match tryProcess http base tc with
  | (tc', none) => tc'
  | (tc', some e) => setKey (setKey tc' "actual_output" (.str "")) "error" (.str e)

/-- The sequential `for testcase in testcases` loop. -/
def generateLoop (http : String → JVal → Except String JVal) (base : String) :
    List JDict → List JDict
  | [] => []
  | tc :: rest => processItem http base tc :: generateLoop http base rest

/-! ## Result-to-CSV converter (`src/utils/convert_results_to_csv.py`) -/

/-- One CSV row of the converter's fixed 6-column layout. -/
structure Row where
  query_id : JVal
  query : JVal
  query_run : Nat
  passage_id : String
  passage : JVal
  generated_answer : JVal
deriving Repr

/-- The `for idx, source in enumerate(contexts, start=1)` loop: one row per
source, with the generated answer only on `idx == 1`.  `none` models the
exception Python raises when a source is not a dict. -/
def buildRows (qid q ans : JVal) : Nat → List JVal → Option (List Row)
  | _, [] => some []
  | idx, s :: rest =>
    match s with
    | .obj f =>
      (buildRows qid q ans (idx + 1) rest).map
        (fun rs =>
          { query_id := qid, query := q, query_run := 1,
            passage_id := "[" ++ toString idx ++ "]",
            passage := getD f "content" (.str ""),
            generated_answer := if idx = 1 then ans else .str "" } :: rs)
    | _ => none

/-- Row production for one result record of `convert_json_to_csv`:
strict access to `question_id`, `question` and `answer` (a `KeyError`
aborts the conversion → `none`), then either the per-source fan-out or the
single empty-passage row when `contexts` is falsy. -/
def rowsForResult (r : JVal) : Option (List Row) :=
  match r with
  | .obj fields =>
    match objGet fields "question_id" with
    | none => none
    | some qid =>
      match objGet fields "question" with
      | none => none
      | some q =>
        match objGet fields "answer" with
        | none => none
        | some ans =>
          let contexts := getD fields "contexts" (.arr [])
          if truthy contexts then
            match contexts with
            | .arr cs => buildRows qid q ans 1 cs
            | _ => none
          else
            some [{ query_id := qid, query := q, query_run := 1,
                    passage_id := "[1]", passage := .str "",
                    generated_answer := ans }]
  | _ => none

/-- The whole row-building phase of `convert_json_to_csv` (the file I/O and
CSV quoting around it are not modelled): the flat `csv_rows` list, or
`none` when any record makes the function raise. -/
def convertRows : List JVal → Option (List Row)
  | [] => some []
  | r :: rest =>
    match rowsForResult r with
    | some rows => (convertRows rest).map (fun more => rows ++ more)
    | none => none

/-! ## Substring counting (used to settle the `/api/v1` occurrence claim) -/

/-- `pat` is an initial segment of `l`. -/
def leadsWith : List Char → List Char → Bool
  | [], _ => true
  | _ :: _, [] => false
  | p :: ps, c :: cs => p == c && leadsWith ps cs

/-- Number of positions of `l` at which `pat` occurs. -/
def countSub (pat : List Char) : List Char → Nat
  | [] => 0
  | c :: t => (if leadsWith pat (c :: t) then 1 else 0) + countSub pat t

/-! ## Definitions used only to state properties -/

/-- The contribution of one source to the context array: its stripped
content when that is non-empty (used to state the context-building claim
as a `filterMap`). -/
def cleanedContent (s : JVal) : Option String :=
  match s with
  | .obj f =>
    match getD f "content" (.str "") with
    | .str c => if strip_markdown c = "" then none else some (strip_markdown c)
    | _ => none
  | _ => none

/-- The characters every pattern of `strip_markdown` needs at least one of:
a string free of them is untouched by all six passes. -/
def mdTrigger (c : Char) : Bool :=
  c == tick || c == '*' || c == '_' || c == '#' || c == '['

/-! ## Helper lemmas -/

theorem objGet_setKey_same (d : JDict) (k : String) (v : JVal) :
    objGet (setKey d k v) k = some v := by
  induction d with
  | nil => simp [setKey, objGet]
  | cons p t ih =>
    obtain ⟨k', v'⟩ := p
    by_cases h : k' = k
    · simp [setKey, h, objGet]
    · simp [setKey, h, objGet, ih]

theorem objGet_setKey_other (d : JDict) (k k' : String) (v : JVal) (hne : k' ≠ k) :
    objGet (setKey d k v) k' = objGet d k' := by
  have hne' : ¬ k = k' := fun h => hne h.symm
  induction d with
  | nil => simp [setKey, objGet, hne']
  | cons p t ih =>
    obtain ⟨k₀, v₀⟩ := p
    by_cases h : k₀ = k
    · subst h
      simp [setKey, objGet, hne']
    · simp [setKey, h, objGet, ih]

/-! ## Claim C1 -/

/-- C1 (counterexample).  The claim asserts that on a failed response the
`context` field of `format_response` is the empty list `[]`; at the concrete
failed response `{"error": "boom", "answer": "zz", "sources": [1]}` the
`context` field is in fact the empty *string* `''`, which is not the empty
list. -/
theorem C1_counterexample :
    (formatResponse (.obj [("error", JVal.str "boom"), ("answer", JVal.str "zz"),
        ("sources", JVal.arr [JVal.num 1])])).bind (fun f => objGet f "context")
      = some (JVal.str "") ∧ JVal.str "" ≠ JVal.arr [] :=
  ⟨rfl, fun h => JVal.noConfusion h⟩

/-- C1 (amended).  For every response record whose `success` field is falsy
(false or absent included), `format_response` returns exactly
`{'answer': '', 'context': '' (the empty string, not a list), 'sources': [],
'error': <original error value, defaulting to 'Unknown error'>}`, regardless
of any other fields present. -/
theorem C1_failure_shape (fields : JDict)
    (h : truthy (getD fields "success" (.bool false)) = false) :
    formatResponse (.obj fields) =
      some [("answer", .str ""), ("context", .str ""), ("sources", .arr []),
            ("error", getD fields "error" (.str "Unknown error"))] := by
  simp [formatResponse, h]

/-- C1 witness: the amended theorem applied to the concrete failed response
`{"error": "boom"}`. -/
theorem C1_failure_shape_witness :
    truthy (getD [("error", JVal.str "boom")] "success" (JVal.bool false)) = false ∧
    formatResponse (.obj [("error", JVal.str "boom")]) =
      some [("answer", JVal.str ""), ("context", JVal.str ""), ("sources", JVal.arr []),
            ("error", JVal.str "boom")] :=
  ⟨rfl, C1_failure_shape [("error", JVal.str "boom")] rfl⟩

/-! ## Claim C6 -/

/-- C6.  Whenever the underlying HTTP request fails at the transport level
(the oracle returns the raised exception's message), `ask_question` and
`ask_question_with_strategy` do not propagate the failure but return the
record `{success: false, error: <message>, answer: "", sources: []}`. -/
theorem C6_transport_failure (http : String → JVal → Except String JVal)
    (base strategy : String) (question : JVal) (cid : Option String) (e1 e2 : String)
    (h1 : http (askEndpoint base) (payloadFor question cid) = .error e1)
    (h2 : http (strategyEndpoint base strategy) (payloadFor question cid) = .error e2) :
    ask_question http base question cid = failureRecord e1 ∧
    ask_question_with_strategy http base strategy question cid = failureRecord e2 := by
  unfold ask_question ask_question_with_strategy
  rw [h1, h2]
  exact ⟨rfl, rfl⟩

/-- C6 witness: a transport oracle that always raises "Connection refused". -/
theorem C6_transport_failure_witness :
    ask_question (fun _ _ => .error "Connection refused") "http://localhost:8000/api/v1"
        (JVal.str "q") none = failureRecord "Connection refused" ∧
    ask_question_with_strategy (fun _ _ => .error "Connection refused")
        "http://localhost:8000/api/v1" "traditional" (JVal.str "q") none
      = failureRecord "Connection refused" :=
  C6_transport_failure (fun _ _ => .error "Connection refused")
    "http://localhost:8000/api/v1" "traditional" (JVal.str "q") none
    "Connection refused" "Connection refused" rfl rfl

/-! ## Claim C4 -/

/-- C4 (counterexample).  The claim says `check_health` returns false only
when both attempts raise; here the GET returns normally with status 404 and
the fallback POST would have returned 200, yet `check_health` is false —
the fallback is not even attempted, because it only runs when the GET
raises. -/
theorem C4_counterexample :
    check_health (fun _ => Except.ok 404) (fun _ _ => Except.ok 200)
      "http://localhost:8000/api/v1" = false :=
  rfl

/-- C4 (amended).  `check_health` GETs the bare server root and returns true
exactly when that GET succeeds with status 200, or the GET raises and the
fallback POST of a throwaway question to the ask endpoint succeeds with
status 200, 400 or 422.  It returns false as soon as the GET returns any
non-200 status (without attempting the fallback), and when, after a raised
GET, the fallback raises or returns any other status. -/
theorem C4_health_decision (hget : String → Except Unit Nat)
    (hpost : String → JVal → Except Unit Nat) (base : String) :
    check_health hget hpost base = true ↔
      hget (serverRoot base) = .ok 200 ∨
      (hget (serverRoot base) = .error () ∧
        ∃ c, hpost (askEndpoint base) (.obj [("question", JVal.str "test")]) = .ok c ∧
          (c = 200 ∨ c = 400 ∨ c = 422)) := by
  unfold check_health
  cases hg : hget (serverRoot base) with
  | ok code =>
    constructor
    · intro h
      exact Or.inl (by simpa using h)
    · rintro (h | ⟨h, -⟩)
      · simpa using congrArg (fun x => match x with | Except.ok c => c | _ => 0) h
      · exact absurd h (by simp)
  | error u =>
    cases u
    cases hp : hpost (askEndpoint base) (.obj [("question", JVal.str "test")]) with
    | ok c =>
      constructor
      · intro h
        refine Or.inr ⟨rfl, c, rfl, ?_⟩
        have := of_decide_eq_true (by simpa using h)
        tauto
      · rintro (h | ⟨-, c', hc', hv⟩)
        · exact absurd h (by simp)
        · have : c = c' := by simpa using congrArg (fun x => match x with | Except.ok k => k | _ => 0) hc'
          subst this
          rcases hv with h | h | h <;> simp [h]
    | error u =>
      cases u
      constructor
      · intro h
        exact absurd h (by simp)
      · rintro (h | ⟨-, c', hc', -⟩)
        · exact absurd h (by simp)
        · exact absurd hc' (by simp)

/-! ## Claims C2 and C8: the CSV row fan-out -/

theorem buildRows_spec (qid q ans : JVal) (cs : List JVal) :
    ∀ start : Nat, (∀ c ∈ cs, ∃ f, c = JVal.obj f) →
      ∃ rows, buildRows qid q ans start cs = some rows ∧ rows.length = cs.length ∧
        ∀ i (hi : i < rows.length),
          (rows.get ⟨i, hi⟩).query_id = qid ∧ (rows.get ⟨i, hi⟩).query = q ∧
          (rows.get ⟨i, hi⟩).query_run = 1 ∧
          (rows.get ⟨i, hi⟩).passage_id = "[" ++ toString (start + i) ++ "]" ∧
          (rows.get ⟨i, hi⟩).generated_answer = (if start + i = 1 then ans else .str "") := by
  induction cs with
  | nil =>
    intro start _
    exact ⟨[], rfl, rfl, fun i hi => absurd hi (by simp)⟩
  | cons c cs' ih =>
    intro start h
    obtain ⟨f, hf⟩ := h c (List.mem_cons_self c cs')
    subst hf
    obtain ⟨rows', hb, hlen, hidx⟩ := ih (start + 1) (fun x hx => h x (List.mem_cons_of_mem _ hx))
    refine ⟨{ query_id := qid, query := q, query_run := 1,
              passage_id := "[" ++ toString start ++ "]",
              passage := getD f "content" (.str ""),
              generated_answer := if start = 1 then ans else .str "" } :: rows',
            ?_, by simp [hlen], ?_⟩
    · simp [buildRows, hb]
    · intro i hi
      cases i with
      | zero => simp
      | succ j =>
        have hj : j < rows'.length := by
          simp only [List.length_cons] at hi
          omega
        have h4 := hidx j hj
        have harith : start + (j + 1) = start + 1 + j := by omega
        simpa [harith] using h4

theorem rowsForResult_success (fields : JDict) (qid q ans : JVal) (cs : List JVal)
    (h1 : objGet fields "question_id" = some qid)
    (h2 : objGet fields "question" = some q)
    (h3 : objGet fields "answer" = some ans)
    (h4 : getD fields "contexts" (.arr []) = .arr cs)
    (h5 : ∀ c ∈ cs, ∃ f, c = JVal.obj f) :
    ∃ rows, rowsForResult (.obj fields) = some rows ∧
      rows.length = max 1 cs.length ∧
      (∀ i (hi : i < rows.length),
        (rows.get ⟨i, hi⟩).query_id = qid ∧
        (rows.get ⟨i, hi⟩).query = q ∧
        (rows.get ⟨i, hi⟩).query_run = 1 ∧
        (rows.get ⟨i, hi⟩).passage_id = "[" ++ toString (i + 1) ++ "]" ∧
        (rows.get ⟨i, hi⟩).generated_answer = (if i = 0 then ans else JVal.str "")) ∧
      (cs = [] → rows = [{ query_id := qid, query := q, query_run := 1,
                           passage_id := "[1]", passage := JVal.str "",
                           generated_answer := ans }]) := by
  cases cs with
  | nil =>
    refine ⟨_, ?_, by simp, ?_, fun _ => rfl⟩
    · simp [rowsForResult, h1, h2, h3, h4, truthy]
    · intro i hi
      simp only [List.length_singleton] at hi
      interval_cases i
      refine ⟨rfl, rfl, rfl, rfl, rfl⟩
  | cons c cs' =>
    obtain ⟨rows, hb, hlen, hidx⟩ :=
      buildRows_spec qid q ans (c :: cs') 1 h5
    refine ⟨rows, ?_, ?_, ?_, by simp⟩
    · simp [rowsForResult, h1, h2, h3, h4, truthy, hb]
    · simp [hlen]
    · intro i hi
      obtain ⟨g1, g2, g3, g4, g5⟩ := hidx i hi
      have harith : 1 + i = i + 1 := by omega
      rw [harith] at g4 g5
      refine ⟨g1, g2, g3, g4, ?_⟩
      rw [g5]
      by_cases h : i = 0 <;> simp [h]

/-- C2 (counterexample).  The claim says the converter accepts records keyed
by `testcase_id`/`actual_output`/`sources` as one of two dispatched schema
variants; on such a record the conversion in fact raises
(`result['question_id']` is a `KeyError`) and produces no rows at all. -/
theorem C2_counterexample :
    convertRows [JVal.obj [("testcase_id", JVal.str "t1"),
      ("actual_output", JVal.str "a"), ("sources", JVal.arr [])]] = none :=
  rfl

/-- C2 (amended).  The converter handles exactly one schema — records keyed
by `question_id`/`question`/`answer`/`contexts`: any record without a
`question_id` key makes it raise (no structural dispatch exists), while
records of the `question_id` shape produce rows. -/
theorem C2_single_schema :
    (∀ fields : JDict, objGet fields "question_id" = none →
       rowsForResult (.obj fields) = none) ∧
    (∀ (fields : JDict) (qid q ans : JVal) (cs : List JVal),
       objGet fields "question_id" = some qid →
       objGet fields "question" = some q →
       objGet fields "answer" = some ans →
       getD fields "contexts" (.arr []) = .arr cs →
       (∀ c ∈ cs, ∃ f, c = JVal.obj f) →
       (rowsForResult (.obj fields)).isSome = true) := by
  constructor
  · intro fields h
    simp [rowsForResult, h]
  · intro fields qid q ans cs h1 h2 h3 h4 h5
    obtain ⟨rows, hr, -⟩ := rowsForResult_success fields qid q ans cs h1 h2 h3 h4 h5
    rw [hr]
    rfl

/-- C2 witness: both halves of the amended claim at concrete records — a
`testcase_id`-shaped record yields `none`, a `question_id`-shaped record
yields rows. -/
theorem C2_single_schema_witness :
    rowsForResult (.obj [("testcase_id", JVal.str "t1"),
      ("actual_output", JVal.str "a"), ("sources", JVal.arr [])]) = none ∧
    (rowsForResult (.obj [("question_id", JVal.str "q1"), ("question", JVal.str "Q"),
      ("answer", JVal.str "A"), ("contexts", JVal.arr [JVal.obj [("content", JVal.str "c1")]])])).isSome
      = true :=
  ⟨C2_single_schema.1 _ rfl,
   C2_single_schema.2 _ (JVal.str "q1") (JVal.str "Q") (JVal.str "A")
     [JVal.obj [("content", JVal.str "c1")]] rfl rfl rfl rfl
     (by intro c hc; fin_cases hc; exact ⟨_, rfl⟩)⟩

/-- C8.  For a well-formed result record: with `n ≥ 1` contexts the
converter emits exactly `n` rows sharing `query_id`/`query`, with
`passage_id` "[1]" … "[n]" in order and the generated answer only on the
first row; with zero contexts it emits exactly the single row with empty
passage, `passage_id` "[1]" and the answer populated. -/
theorem C8_row_fanout (fields : JDict) (qid q ans : JVal) (cs : List JVal)
    (h1 : objGet fields "question_id" = some qid)
    (h2 : objGet fields "question" = some q)
    (h3 : objGet fields "answer" = some ans)
    (h4 : getD fields "contexts" (.arr []) = .arr cs)
    (h5 : ∀ c ∈ cs, ∃ f, c = JVal.obj f) :
    ∃ rows, rowsForResult (.obj fields) = some rows ∧
      rows.length = max 1 cs.length ∧
      (∀ i (hi : i < rows.length),
        (rows.get ⟨i, hi⟩).query_id = qid ∧
        (rows.get ⟨i, hi⟩).query = q ∧
        (rows.get ⟨i, hi⟩).query_run = 1 ∧
        (rows.get ⟨i, hi⟩).passage_id = "[" ++ toString (i + 1) ++ "]" ∧
        (rows.get ⟨i, hi⟩).generated_answer = (if i = 0 then ans else JVal.str "")) ∧
      (cs = [] → rows = [{ query_id := qid, query := q, query_run := 1,
                           passage_id := "[1]", passage := JVal.str "",
                           generated_answer := ans }]) :=
  rowsForResult_success fields qid q ans cs h1 h2 h3 h4 h5

/-- C8 witness: a record with three contexts produces rows (the theorem's
hypotheses are discharged at this concrete record). -/
theorem C8_row_fanout_witness :
    (rowsForResult (.obj [("question_id", JVal.str "q1"), ("question", JVal.str "Q"),
      ("answer", JVal.str "A"),
      ("contexts", JVal.arr [JVal.obj [("content", JVal.str "c1")],
        JVal.obj [("content", JVal.str "c2")],
        JVal.obj [("content", JVal.str "c3")]])])).isSome = true := by
  obtain ⟨rows, hr, -, -, -⟩ := C8_row_fanout
    [("question_id", JVal.str "q1"), ("question", JVal.str "Q"),
     ("answer", JVal.str "A"),
     ("contexts", JVal.arr [JVal.obj [("content", JVal.str "c1")],
       JVal.obj [("content", JVal.str "c2")], JVal.obj [("content", JVal.str "c3")]])]
    (JVal.str "q1") (JVal.str "Q") (JVal.str "A")
    [JVal.obj [("content", JVal.str "c1")], JVal.obj [("content", JVal.str "c2")],
     JVal.obj [("content", JVal.str "c3")]]
    rfl rfl rfl rfl (by intro c hc; fin_cases hc <;> exact ⟨_, rfl⟩)
  rw [hr]
  rfl

/-! ## Claim C7 -/

theorem contextArray_eq_filterMap (sources : List JVal)
    (hok : ∀ s ∈ sources, ∃ f c, s = JVal.obj f ∧ getD f "content" (.str "") = JVal.str c) :
    contextArray sources = some (sources.filterMap cleanedContent) := by
  induction sources with
  | nil => rfl
  | cons s rest ih =>
    obtain ⟨f, c, hs, hc⟩ := hok s (List.mem_cons_self s rest)
    subst hs
    have ih' := ih (fun x hx => hok x (List.mem_cons_of_mem _ hx))
    by_cases hstrip : strip_markdown c = ""
    · simp [contextArray, hc, hstrip, ih', List.filterMap_cons, cleanedContent]
    · simp [contextArray, hc, hstrip, ih', List.filterMap_cons, cleanedContent]

/-- C7.  For every successful response (truthy `success`, list-shaped
`sources` of dicts with string content, dict-shaped `metadata`),
`format_response` returns the record whose `context` is the ordered list of
markdown-stripped source contents with empties dropped (so its length is at
most the number of sources), with `sources`/`metadata`/`conversation_id`/
`suggestions` republished via `.get` with their defaults and
`processing_time` pulled out of the nested metadata, defaulting to 0. -/
theorem C7_success_shape (fields : JDict) (sources : List JVal) (metaFields : JDict)
    (hs : truthy (getD fields "success" (.bool false)) = true)
    (hsrc : getD fields "sources" (.arr []) = .arr sources)
    (hmeta : getD fields "metadata" (.obj []) = .obj metaFields)
    (hok : ∀ s ∈ sources, ∃ f c, s = JVal.obj f ∧ getD f "content" (.str "") = JVal.str c) :
    formatResponse (.obj fields) = some
      [("question", getD fields "original_question" (.str "")),
       ("answer", getD fields "answer" (.str "")),
       ("context", .arr ((sources.filterMap cleanedContent).map JVal.str)),
       ("sources", .arr sources),
       ("conversation_id", getD fields "conversation_id" (.str "")),
       ("suggestions", getD fields "suggestions" (.arr [])),
       ("metadata", .obj metaFields),
       ("processing_time", getD metaFields "processing_time" (.num 0))] ∧
    (sources.filterMap cleanedContent).length ≤ sources.length := by
  constructor
  · simp [formatResponse, hs, hsrc, hmeta, contextArray_eq_filterMap sources hok]
  · exact List.length_filterMap_le cleanedContent sources

/-- C7 witness: the theorem applied to a concrete successful response with
two sources, one of which strips to the empty string and is dropped. -/
theorem C7_success_shape_witness :
    formatResponse (.obj [("success", JVal.bool true), ("answer", JVal.str "A"),
      ("sources", JVal.arr [JVal.obj [("content", JVal.str "**x**")],
        JVal.obj [("content", JVal.str "``")]]),
      ("metadata", JVal.obj [("processing_time", JVal.num 3)])]) = some
      [("question", JVal.str ""),
       ("answer", JVal.str "A"),
       ("context", JVal.arr [JVal.str "x"]),
       ("sources", JVal.arr [JVal.obj [("content", JVal.str "**x**")],
         JVal.obj [("content", JVal.str "``")]]),
       ("conversation_id", JVal.str ""),
       ("suggestions", JVal.arr []),
       ("metadata", JVal.obj [("processing_time", JVal.num 3)]),
       ("processing_time", JVal.num 3)] := by
  have h := C7_success_shape
    [("success", JVal.bool true), ("answer", JVal.str "A"),
     ("sources", JVal.arr [JVal.obj [("content", JVal.str "**x**")],
       JVal.obj [("content", JVal.str "``")]]),
     ("metadata", JVal.obj [("processing_time", JVal.num 3)])]
    [JVal.obj [("content", JVal.str "**x**")], JVal.obj [("content", JVal.str "``")]]
    [("processing_time", JVal.num 3)]
    rfl rfl rfl
    (by intro s hs; fin_cases hs <;> exact ⟨_, _, rfl, rfl⟩)
  exact h.1

/-! ## Claim C9 -/

theorem generateLoop_eq_map (http : String → JVal → Except String JVal) (base : String)
    (tcs : List JDict) :
    generateLoop http base tcs = tcs.map (processItem http base) := by
  induction tcs with
  | nil => rfl
  | cons tc rest ih => simp [generateLoop, ih]

/-- C9.  The batch loop processes each test case independently: the output
has one entry per input, entry `i` depends only on input `i`; when the
per-item attempt fails its entry is the partially updated record with
`actual_output` overwritten to `""` and a populated `error` string, and
when it succeeds its entry is the fully updated record (every other item is
untouched by one item's failure, so one bad item never aborts the batch). -/
theorem C9_per_item_isolation (http : String → JVal → Except String JVal)
    (base : String) (tcs : List JDict) (i : Nat) (hi : i < tcs.length) :
    (generateLoop http base tcs).length = tcs.length ∧
    (generateLoop http base tcs).get? i = some (processItem http base (tcs.get ⟨i, hi⟩)) ∧
    (∀ tc' e, tryProcess http base (tcs.get ⟨i, hi⟩) = (tc', some e) →
       processItem http base (tcs.get ⟨i, hi⟩) =
         setKey (setKey tc' "actual_output" (.str "")) "error" (.str e) ∧
       objGet (processItem http base (tcs.get ⟨i, hi⟩)) "actual_output" = some (.str "") ∧
       objGet (processItem http base (tcs.get ⟨i, hi⟩)) "error" = some (.str e)) ∧
    (∀ tc', tryProcess http base (tcs.get ⟨i, hi⟩) = (tc', none) →
       processItem http base (tcs.get ⟨i, hi⟩) = tc') := by
  refine ⟨?_, ?_, ?_, ?_⟩
  · rw [generateLoop_eq_map]
    exact List.length_map tcs (processItem http base)
  · rw [generateLoop_eq_map]
    rw [List.get?_map]
    rw [List.get?_eq_get hi]
    rfl
  · intro tc' e h
    have hp : processItem http base (tcs.get ⟨i, hi⟩) =
        setKey (setKey tc' "actual_output" (.str "")) "error" (.str e) := by
      unfold processItem
      rw [h]
    refine ⟨hp, ?_, ?_⟩
    · rw [hp]
      rw [objGet_setKey_other _ "error" "actual_output" _ (by decide)]
      exact objGet_setKey_same _ _ _
    · rw [hp]
      exact objGet_setKey_same _ _ _
  · intro tc' h
    unfold processItem
    rw [h]

/-- C9 witness: a two-item batch against an always-raising transport; the
theorem is applied at item 0, whose attempt fails (the failure-shaped
record has no `metadata` key), and the batch still has both entries. -/
theorem C9_per_item_isolation_witness :
    (generateLoop (fun _ _ => Except.error "boom") "b"
       [[("question", JVal.str "q")], [("question", JVal.str "q2")]]).length = 2 ∧
    objGet (processItem (fun _ _ => Except.error "boom") "b" [("question", JVal.str "q")])
      "actual_output" = some (JVal.str "") := by
  have h := C9_per_item_isolation (fun _ _ => Except.error "boom") "b"
    [[("question", JVal.str "q")], [("question", JVal.str "q2")]] 0 (by decide)
  exact ⟨h.1, (h.2.2.1 _ "KeyError: metadata" rfl).2.1⟩

/-! ## Claim C5 -/

theorem leadsWith_iff : ∀ (p l : List Char), leadsWith p l = true ↔ l.take p.length = p
  | [], l => by simp [leadsWith]
  | a :: ps, [] => by simp [leadsWith]
  | a :: ps, c :: cs => by
    simp only [leadsWith, Bool.and_eq_true, beq_iff_eq, leadsWith_iff ps cs,
      List.length_cons, List.take_succ_cons, List.cons.injEq]
    constructor
    · rintro ⟨h1, h2⟩
      exact ⟨h1.symm, h2⟩
    · rintro ⟨h1, h2⟩
      exact ⟨h1.symm, h2⟩

theorem leadsWith_self (p : List Char) : leadsWith p p = true :=
  (leadsWith_iff p p).mpr (List.take_length p)

theorem countSub_le_cons (p : List Char) (c : Char) (t : List Char) :
    countSub p t ≤ countSub p (c :: t) := by
  simp only [countSub]
  omega

theorem countSub_drop_le (p : List Char) : ∀ (d : Nat) (l : List Char),
    countSub p (l.drop d) ≤ countSub p l
  | 0, l => le_of_eq rfl
  | d + 1, [] => le_of_eq rfl
  | d + 1, c :: t =>
    le_trans (countSub_drop_le p d t) (countSub_le_cons p c t)

theorem countSub_eq_zero_of_short (p : List Char) : ∀ l : List Char,
    l.length < p.length → countSub p l = 0
  | [], _ => rfl
  | c :: t, h => by
    have hlw : leadsWith p (c :: t) = false := by
      rcases hl : leadsWith p (c :: t) with _ | _
      · rfl
      · have := (leadsWith_iff p (c :: t)).mp hl
        have hlen : ((c :: t).take p.length).length = p.length := by rw [this]
        rw [List.length_take] at hlen
        omega
    have ht : countSub p t = 0 := by
      apply countSub_eq_zero_of_short
      simp only [List.length_cons] at h
      omega
    simp [countSub, hlw, ht]

theorem countSub_pos_of_endsWithL (p l : List Char) (hp : p ≠ [])
    (h : endsWithL l p = true) : 0 < countSub p l := by
  unfold endsWithL at h
  rw [beq_iff_eq] at h
  have hdrop : 0 < countSub p (l.drop (l.length - p.length)) := by
    rw [← h]
    obtain ⟨a, ps, rfl⟩ := List.exists_cons_of_ne_nil hp
    simp [countSub, leadsWith_self]
  exact lt_of_lt_of_le hdrop (countSub_drop_le p _ l)

theorem endsWithL_append (l p : List Char) : endsWithL (l ++ p) p = true := by
  unfold endsWithL
  rw [List.length_append, Nat.add_sub_cancel, List.drop_left]
  exact beq_self_eq_true p

theorem countSub_append_self (pat : List Char) (hne : pat ≠ [])
    (hb : ∀ k, k < pat.length → 0 < k → pat.drop k ≠ pat.take (pat.length - k))
    (b : List Char) (h0 : countSub pat b = 0) : countSub pat (b ++ pat) = 1 := by
  induction b with
  | nil =>
    obtain ⟨a, ps, hpat⟩ := List.exists_cons_of_ne_nil hne
    subst hpat
    have hshort : countSub (a :: ps) ps = 0 :=
      countSub_eq_zero_of_short _ ps (by simp)
    simp [countSub, leadsWith_self, hshort]
  | cons c t ih =>
    have h0' : leadsWith pat (c :: t) = false ∧ countSub pat t = 0 := by
      by_cases hl : leadsWith pat (c :: t) = true
      · exfalso
        simp [countSub, hl] at h0
      · simp only [Bool.not_eq_true] at hl
        simp [countSub, hl] at h0
        exact ⟨hl, h0⟩
    have ih' := ih h0'.2
    have hlw : leadsWith pat (c :: t ++ pat) = false := by
      by_contra hcon
      simp only [Bool.not_eq_false] at hcon
      have htake := (leadsWith_iff pat ((c :: t) ++ pat)).mp hcon
      by_cases hle : pat.length ≤ (c :: t).length
      · rw [List.take_append_of_le_length hle] at htake
        have : leadsWith pat (c :: t) = true := (leadsWith_iff pat (c :: t)).mpr htake
        rw [this] at h0'
        exact Bool.noConfusion h0'.1
      · push_neg at hle
        rw [List.take_append_eq_append_take,
            List.take_of_length_le (le_of_lt hle)] at htake
        have hdrop : pat.drop (c :: t).length = pat.take (pat.length - (c :: t).length) := by
          conv_lhs => rw [← htake]
          rw [List.drop_left]
        exact hb (c :: t).length hle (by simp) hdrop
    calc countSub pat ((c :: t) ++ pat)
        = (if leadsWith pat (c :: t ++ pat) then 1 else 0) + countSub pat (t ++ pat) := rfl
      _ = 1 := by rw [hlw, ih']; simp

/-- C5 (counterexample).  The claim says every normalized base URL contains
`/api/v1` exactly once; for the base address
`"http://h/api/v1/api/v1"` (which already ends with the suffix, so nothing
is appended) the stored URL contains `/api/v1` at two positions. -/
theorem C5_counterexample :
    countSub ("/api/v1".data) ((normalizeBase "http://h/api/v1/api/v1").data) = 2 ∧
    (2 : Nat) ≠ 1 :=
  ⟨by decide, by decide⟩

/-- C5 (amended).  The normalized base URL always *ends* with `/api/v1`:
the suffix is appended exactly when the slash-stripped address does not
already end with it, and when the address contains no occurrence of
`/api/v1` at all the normalized URL contains it exactly once.  (Addresses
that already contain `/api/v1` elsewhere can yield several occurrences, as
the counterexample shows.) -/
theorem C5_normalized (base : String) :
    endsWithL (normalizeBase base).data ("/api/v1".data) = true ∧
    (endsWithL (rstripSlashL base.data) ("/api/v1".data) = true →
       (normalizeBase base).data = rstripSlashL base.data) ∧
    (endsWithL (rstripSlashL base.data) ("/api/v1".data) = false →
       (normalizeBase base).data = rstripSlashL base.data ++ "/api/v1".data) ∧
    (countSub ("/api/v1".data) (rstripSlashL base.data) = 0 →
       countSub ("/api/v1".data) ((normalizeBase base).data) = 1) := by
  by_cases h : endsWithL (rstripSlashL base.data) ("/api/v1".data) = true
  · have hdata : (normalizeBase base).data = rstripSlashL base.data := by
      simp only [normalizeBase, h, if_true]
    refine ⟨?_, fun _ => hdata, fun hf => absurd h (by simp [hf]), fun h0 => ?_⟩
    · rw [hdata]
      exact h
    · exact absurd (countSub_pos_of_endsWithL _ _ (by decide) h) (by omega)
  · have hf : endsWithL (rstripSlashL base.data) ("/api/v1".data) = false := by
      simpa using h
    have hdata : (normalizeBase base).data = rstripSlashL base.data ++ "/api/v1".data := by
      simp only [normalizeBase, hf, Bool.false_eq_true, if_false]
    refine ⟨?_, fun ht => absurd ht h, fun _ => hdata, fun h0 => ?_⟩
    · rw [hdata]
      exact endsWithL_append _ _
    · rw [hdata]
      exact countSub_append_self _ (by decide) (by decide) _ h0

/-- C5 witness: the amended theorem applied to the default base address,
which contains no `/api/v1`, so the normalized URL contains it exactly
once. -/
theorem C5_normalized_witness :
    countSub ("/api/v1".data) (rstripSlashL ("http://localhost:8000").data) = 0 ∧
    countSub ("/api/v1".data) ((normalizeBase "http://localhost:8000").data) = 1 :=
  ⟨by decide, (C5_normalized "http://localhost:8000").2.2.2 (by decide)⟩

/-! ## Claim C10 -/

theorem takeWhile_append_cons (p : Char → Bool) :
    ∀ (l : List Char) (c : Char) (r : List Char),
      (∀ x ∈ l, p x = true) → p c = false →
      ((l ++ c :: r).takeWhile p = l ∧ (l ++ c :: r).dropWhile p = c :: r)
  | [], c, r, _, hc => by simp [List.takeWhile_cons, List.dropWhile_cons, hc]
  | a :: l', c, r, hl, hc => by
    have ha : p a = true := hl a (List.mem_cons_self a l')
    have ih := takeWhile_append_cons p l' c r (fun x hx => hl x (List.mem_cons_of_mem _ hx)) hc
    simp [List.takeWhile_cons, List.dropWhile_cons, ha, ih.1, ih.2]

theorem not_space_of_digit (c : Char) (h : c.isDigit = true) : isPySpace c = false := by
  by_contra hcon
  rw [Bool.not_eq_false] at hcon
  simp only [isPySpace, Bool.or_eq_true, beq_iff_eq] at hcon
  rcases hcon with (((((rfl | rfl) | rfl) | rfl) | rfl) | rfl) <;> exact absurd h (by decide)

theorem matchRangeBody_hit (d1 d2 post : List Char)
    (h1 : d1 ≠ []) (h1d : ∀ c ∈ d1, c.isDigit = true)
    (h2 : d2 ≠ []) (h2d : ∀ c ∈ d2, c.isDigit = true) :
    matchRangeBody (d1 ++ ' ' :: '-' :: ' ' :: (d2 ++ ']' :: post))
      = some (digitsVal d1, digitsVal d2) := by
  have hd1 := takeWhile_append_cons Char.isDigit d1 ' '
    ('-' :: ' ' :: (d2 ++ ']' :: post)) h1d (by decide)
  have hd2 := takeWhile_append_cons Char.isDigit d2 ']' post h2d (by decide)
  obtain ⟨b, bs, hb⟩ := List.exists_cons_of_ne_nil h2
  have hbs : isPySpace b = false := by
    apply not_space_of_digit
    apply h2d
    rw [hb]
    exact List.mem_cons_self b bs
  simp only [matchRangeBody]
  rw [hd1.1, hd1.2]
  rw [if_neg (by simp [List.isEmpty_iff, h1])]
  simp only [List.dropWhile_cons]
  rw [show isPySpace ' ' = true from rfl]
  simp only [if_true]
  rw [show isPySpace '-' = false from rfl]
  simp only [Bool.false_eq_true, if_false]
  have hdrop2 : List.dropWhile isPySpace (' ' :: (d2 ++ ']' :: post)) = d2 ++ ']' :: post := by
    rw [List.dropWhile_cons, if_pos (show isPySpace ' ' = true from rfl), hb,
        List.cons_append, List.dropWhile_cons,
        if_neg (show ¬ (isPySpace b = true) from by simp [hbs]),
        ← List.cons_append, ← hb]
  rw [hdrop2, hd2.1, hd2.2]
  rw [if_neg (by simp [List.isEmpty_iff, h2])]
  rfl

theorem matchRangeAt_miss (c : Char) (l : List Char) (hc : c ≠ '[') :
    matchRangeAt (c :: l) = none := by
  simp only [matchRangeAt]
  rw [if_neg hc]

theorem findRange_append (l r : List Char) (hl : ∀ c ∈ l, c ≠ '[') :
    findRange (l ++ r) = findRange r := by
  induction l with
  | nil => rfl
  | cons c t ih =>
    have hm := matchRangeAt_miss c (t ++ r) (hl c (List.mem_cons_self c t))
    rw [List.cons_append]
    simp only [findRange, hm]
    exact ih (fun x hx => hl x (List.mem_cons_of_mem _ hx))

/-- C10.  `extract_start_end` returns the integer pair of the first
`[digits - digits]` occurrence, ignoring all surrounding text (here: any
text without a `[` before the occurrence, anything after), with no
ordering or sign validation — arbitrary digit runs are accepted, the
reversed range "[7 - 3]" yields (7, 3), and the signed "[-1 - 5]" does not
match, yielding `none`. -/
theorem C10_extract_first_range (pre post : String) (d1 d2 : List Char)
    (hpre : ∀ c ∈ pre.data, c ≠ '[')
    (h1 : d1 ≠ []) (h1d : ∀ c ∈ d1, c.isDigit = true)
    (h2 : d2 ≠ []) (h2d : ∀ c ∈ d2, c.isDigit = true) :
    extract_start_end (pre ++ "[" ++ String.mk d1 ++ " - " ++ String.mk d2 ++ "]" ++ post)
      = some (digitsVal d1, digitsVal d2) ∧
    extract_start_end "[7 - 3]" = some (7, 3) ∧
    extract_start_end "[-1 - 5]" = none := by
  refine ⟨?_, by decide, by decide⟩
  have hdata : (pre ++ "[" ++ String.mk d1 ++ " - " ++ String.mk d2 ++ "]" ++ post).data
      = pre.data ++ ('[' :: (d1 ++ ' ' :: '-' :: ' ' :: (d2 ++ ']' :: post.data))) := by
    simp [String.data_append]
  have hne : (pre ++ "[" ++ String.mk d1 ++ " - " ++ String.mk d2 ++ "]" ++ post) ≠ "" := by
    intro hcon
    have h0 : (pre ++ "[" ++ String.mk d1 ++ " - " ++ String.mk d2 ++ "]" ++ post).data
        = ([] : List Char) := by rw [hcon]
    rw [hdata] at h0
    simp at h0
  unfold extract_start_end
  rw [if_neg hne, hdata, findRange_append _ _ hpre]
  simp only [findRange, matchRangeAt, if_pos,
    matchRangeBody_hit d1 d2 post.data h1 h1d h2 h2d]

/-- C10 witness: the theorem applied with surrounding text and the
reversed-range digit strings "10" and "2". -/
theorem C10_extract_first_range_witness :
    extract_start_end "foo [10 - 2] bar" = some (10, 2) := by
  have h := C10_extract_first_range "foo " " bar" ['1', '0'] ['2']
    (by decide) (by decide) (by decide) (by decide) (by decide)
  exact h.1

/-! ## Claim C3 -/

theorem not_tick (c : Char) (h : mdTrigger c = false) : (c == tick) = false := by
  unfold mdTrigger at h
  cases hb : (c == tick)
  · rfl
  · rw [hb] at h
    simp at h

theorem not_star (c : Char) (h : mdTrigger c = false) : (c == '*') = false := by
  unfold mdTrigger at h
  cases hb : (c == '*')
  · rfl
  · rw [hb] at h
    simp at h

theorem not_underscore (c : Char) (h : mdTrigger c = false) : (c == '_') = false := by
  unfold mdTrigger at h
  cases hb : (c == '_')
  · rfl
  · rw [hb] at h
    simp at h

theorem not_hash (c : Char) (h : mdTrigger c = false) : (c == '#') = false := by
  unfold mdTrigger at h
  cases hb : (c == '#')
  · rfl
  · rw [hb] at h
    simp at h

theorem not_lbracket (c : Char) (h : mdTrigger c = false) : (c == '[') = false := by
  unfold mdTrigger at h
  cases hb : (c == '[')
  · rfl
  · rw [hb] at h
    simp at h

theorem reSubF_id (m : List Char → Option (List Char × List Char))
    (hm : ∀ l, (∀ c ∈ l, mdTrigger c = false) → m l = none) :
    ∀ (f : Nat) (l : List Char), (∀ c ∈ l, mdTrigger c = false) → reSubF m f l = l
  | f, [], _ => by cases f <;> rfl
  | 0, _ :: _, _ => rfl
  | fn + 1, c :: t, h => by
    simp only [reSubF, hm (c :: t) h]
    rw [reSubF_id m hm fn t (fun x hx => h x (List.mem_cons_of_mem _ hx))]

theorem fenceM_none (l : List Char) (h : ∀ c ∈ l, mdTrigger c = false) :
    fenceM l = none := by
  match l with
  | [] => rfl
  | [_] => rfl
  | [_, _] => rfl
  | c :: c2 :: c3 :: r =>
    have hc := not_tick c (h c (by simp))
    simp [fenceM, hc]

theorem inlineM_none (l : List Char) (h : ∀ c ∈ l, mdTrigger c = false) :
    inlineM l = none := by
  match l with
  | [] => rfl
  | c :: t =>
    have hc := not_tick c (h c (by simp))
    simp [inlineM, hc]

theorem imageM_none (l : List Char) (h : ∀ c ∈ l, mdTrigger c = false) :
    imageM l = none := by
  match l with
  | [] => rfl
  | [_] => rfl
  | c1 :: c2 :: r =>
    have hc : (c2 == '[') = false := not_lbracket c2 (h c2 (by simp))
    have hne : ¬ (c1 = '!' ∧ c2 = '[') := by
      rintro ⟨-, rfl⟩
      simp at hc
    simp [imageM, hne]

theorem linkM_none (l : List Char) (h : ∀ c ∈ l, mdTrigger c = false) :
    linkM l = none := by
  match l with
  | [] => rfl
  | c :: r =>
    have hc : (c == '[') = false := not_lbracket c (h c (by simp))
    have hne : ¬ c = '[' := by
      intro hcon
      rw [hcon] at hc
      simp at hc
    simp [linkM, hne]

theorem emphM_none (l : List Char) (h : ∀ c ∈ l, mdTrigger c = false) :
    emphM l = none := by
  match l with
  | [] => rfl
  | [c] =>
    have hs := not_star c (h c (by simp))
    have hu := not_underscore c (h c (by simp))
    simp [emphM, emphTry2, emphTry1, hs, hu]
  | c1 :: c2 :: t =>
    have hs := not_star c1 (h c1 (by simp))
    have hu := not_underscore c1 (h c1 (by simp))
    simp [emphM, emphTry2, emphTry1, hs, hu]

theorem stripHeadF_id : ∀ (f : Nat) (b : Bool) (l : List Char),
    (∀ c ∈ l, mdTrigger c = false) → stripHeadF f b l = l
  | f, _, [], _ => by cases f <;> rfl
  | 0, _, _ :: _, _ => rfl
  | fn + 1, b, c :: t, h => by
    have hc := not_hash c (h c (by simp))
    simp only [stripHeadF]
    rw [show (b && (c == '#')) = false by simp [hc]]
    simp only [Bool.false_eq_true, if_false]
    rw [stripHeadF_id fn (c == '\n') t (fun x hx => h x (List.mem_cons_of_mem _ hx))]

/-- C3 (counterexample).  `strip_markdown` is not idempotent: on the input
`"*_*_"` one application yields `"__"` (the emphasis pass consumes the
outer asterisk pair, leaving a fresh underscore pair), and a second
application yields `""`. -/
theorem C3_counterexample :
    strip_markdown (strip_markdown "*_*_") ≠ strip_markdown "*_*_" := by
  decide

/-- C3 (amended).  Idempotence fails in general (see the counterexample);
it does hold on every string containing none of the markdown trigger
characters (backtick, `*`, `_`, `#`, `[`), where `strip_markdown` is the
identity, so a second application changes nothing. -/
theorem C3_strip_markdown_fixpoint (x : String)
    (h : ∀ c ∈ x.data, mdTrigger c = false) :
    strip_markdown x = x ∧ strip_markdown (strip_markdown x) = strip_markdown x := by
  have hfix : strip_markdown x = x := by
    have e1 : reSub fenceM x.data = x.data := reSubF_id fenceM fenceM_none _ _ h
    have e2 : reSub inlineM x.data = x.data := reSubF_id inlineM inlineM_none _ _ h
    have e3 : reSub imageM x.data = x.data := reSubF_id imageM imageM_none _ _ h
    have e4 : reSub linkM x.data = x.data := reSubF_id linkM linkM_none _ _ h
    have e5 : stripHeadings x.data = x.data := stripHeadF_id _ true _ h
    have e6 : reSub emphM x.data = x.data := reSubF_id emphM emphM_none _ _ h
    unfold strip_markdown
    simp only [e1, e2, e3, e4, e5, e6]
  exact ⟨hfix, by rw [hfix, hfix]⟩

/-- C3 witness: the amended theorem at the markdown-free string
`"hello world"`. -/
theorem C3_strip_markdown_fixpoint_witness :
    strip_markdown "hello world" = "hello world" :=
  (C3_strip_markdown_fixpoint "hello world" (by decide)).1
